import Mathlib

/-!
Verification of the MLops model-registry and serving code.

The registry side embeds `src/model_registry.py` (class `ModelRegistry`):
registration, metric lookup, candidate-vs-incumbent comparison and
promotion to the Production stage.  The serving side embeds
`src/predict.py`: `load_production_model` and the `predict` endpoint.

Python floats are modelled as rationals, the MLflow backing store as a
list of model versions (version number, stage, run id) plus a map from
run id to the metrics recorded for that run.  Store failures (the
`except` branches in the source) are modelled by an explicit boolean
flag: when the flag is false the corresponding client call raises and
the handler in the source runs.
-/

/-- Lifecycle stage of a registered model version.  The MLflow stage
"None" of a freshly registered version is `Unstaged`, "Production" is
`Deployed`, "Archived" is `Archived`. -/
inductive Stage where
  | Unstaged
  | Deployed
  | Archived
deriving DecidableEq, Repr

/-- One registered model version: its number, its stage and the id of
the training run it came from. -/
structure MV where
  version : Nat
  stage : Stage
  runId : String
deriving DecidableEq, Repr

/-- The versions registered under the single configured model name, in
registration order. -/
abbrev Registry := List MV

/-- A metrics mapping: metric name to recorded value. -/
abbrev Metrics := List (String × Rat)

/-- The run store: run id to the metrics logged for that run. -/
abbrev RunStore := List (String × Metrics)

/-- All registered version numbers. -/
def versions (r : Registry) : List Nat := r.map (fun m => m.version)

/-- Lookup of the entry for a version number, via `find?`. -/
def findVersion (r : Registry) (v : Nat) : Option MV :=
  r.find? (fun m => m.version = v)

/-- The stage of a version number, if registered. -/
def stageOf (r : Registry) (v : Nat) : Option Stage :=
  (findVersion r v).map (fun m => m.stage)

/-- Version numbers currently in stage `Deployed`. -/
def deployedVersions (r : Registry) : List Nat :=
  (r.filter (fun m => m.stage = Stage.Deployed)).map (fun m => m.version)

/-- Models `client.get_latest_versions(name, stages=["Production"])`: MLflow
returns the highest-numbered version in the Production stage, or
nothing when no version is in that stage. -/
def getLatestDeployed (r : Registry) : Option Nat := (deployedVersions r).max?

/-- Models `max(all_versions, key=lambda x: int(x.version))` over every
registered version regardless of stage. -/
def maxVersion (r : Registry) : Option Nat := (versions r).max?

/-- Models `client.transition_model_version_stage(name, version, stage)`:
rewrites the stage of the entry carrying that version number. -/
def setStage (r : Registry) (v : Nat) (s : Stage) : Registry :=
  r.map (fun m => if m.version = v then { m with stage := s } else m)

/-- The archive loop of `promote_to_production`: for every version
returned by `get_latest_versions(stages=["Production"])` (at most one,
the latest Production version), transition it to Archived. -/
def archiveExistingStep (r : Registry) : Registry :=
  match getLatestDeployed r with
  | some pv => setStage r pv Stage.Archived
  | none => r

/-- Embeds `ModelRegistry.promote_to_production(version, archive_existing)`.
When `ok` is false the store raises at the first client call and the
`except` handler returns `False` with the registry unchanged.  With the
store reachable: if `archive_existing`, the latest Production version
(as returned by `get_latest_versions`) is transitioned to Archived;
then `version` is transitioned to Production, which raises (caught,
`False`) when no such version is registered. -/
def promote_to_production (ok : Bool) (r : Registry) (version : Nat)
    (archive_existing : Bool) : Registry × Bool :=
  if ok then
    let r1 := if archive_existing then archiveExistingStep r else r
    if version ∈ versions r1 then (setStage r1 version Stage.Deployed, true)
    else (r1, false)
  else (r, false)

/-- Embeds `ModelRegistry.get_production_model_metrics()`.  Returns the run
metrics of the latest Production version.  The source wraps the whole
body in `try ... except: return None`, so a store failure (`ok =
false`) and the genuine no-Production-model case both come back as
`none`. -/
def get_production_model_metrics (ok : Bool) (r : Registry) (runs : RunStore) :
    Option Metrics :=
  if ok then
    match getLatestDeployed r with
    | none => none
    | some pv =>
      match findVersion r pv with
      | none => none
      | some mv => runs.lookup mv.runId
  else none

/-- The decision core of `ModelRegistry.compare_models` (lines 104-134),
with the incumbent metrics (the result of
`get_production_model_metrics`) passed as a parameter: candidate metric
missing gives `false`; no incumbent metrics gives `true`; incumbent
metric missing gives `true`; otherwise a strict numeric comparison in
the direction of `higher_is_better`. -/
def comparePolicy (candidateMetrics : Metrics) (prodMetrics : Option Metrics)
    (metric_name : String) (higher_is_better : Bool) : Bool :=
  match candidateMetrics.lookup metric_name with
  | none => false
  | some c =>
    match prodMetrics with
    | none => true
    | some pm =>
      match pm.lookup metric_name with
      | none => true
      | some p => if higher_is_better then decide (c > p) else decide (c < p)

/-- Embeds `ModelRegistry.compare_models` with the candidate metrics already
fetched from the candidate run: compares against
`get_production_model_metrics`. -/
def compare_models (ok : Bool) (r : Registry) (runs : RunStore)
    (candidateMetrics : Metrics) (metric_name : String)
    (higher_is_better : Bool) : Bool :=
  comparePolicy candidateMetrics (get_production_model_metrics ok r runs)
    metric_name higher_is_better

/-- The next version number MLflow assigns on registration: one more
than the highest existing version, starting from 1. -/
def nextVersion (r : Registry) : Nat :=
  match maxVersion r with
  | some m => m + 1
  | none => 1

/-- Embeds `ModelRegistry.register_model(run_id)`: appends a fresh version in
the MLflow "None" stage (`Unstaged`) recording the run id, and returns
its version number. -/
def register_model (r : Registry) (run_id : String) : Registry × Nat :=
  (r ++ [⟨nextVersion r, Stage.Unstaged, run_id⟩], nextVersion r)

/-- Models `client.get_run(run_id).data.metrics` for a run assumed to exist;
an absent run is modelled as an empty metrics mapping. -/
def get_run_metrics (runs : RunStore) (run_id : String) : Metrics :=
  match runs.lookup run_id with
  | some m => m
  | none => []

/-- Embeds `ModelRegistry.auto_promote_if_better(run_id, metric_name,
higher_is_better)`: register the run as a new version, compare it
against the Production incumbent, promote on success, and return the
new version number only when the promotion call returned `True`. -/
def auto_promote_if_better (storeOk promoteOk : Bool) (r : Registry)
    (runs : RunStore) (run_id metric_name : String)
    (higher_is_better : Bool) : Registry × Option Nat :=
  let reg := register_model r run_id
  let is_better := compare_models storeOk reg.1 runs
    (get_run_metrics runs run_id) metric_name higher_is_better
  if is_better then
    let ps := promote_to_production promoteOk reg.1 reg.2 true
    if ps.2 then (ps.1, some reg.2) else (ps.1, none)
  else (reg.1, none)

/-- C2: the comparison policy evaluated on a concrete pair of metric
mappings. -/
example :
    comparePolicy [("auc", (17 : Rat))] (some [("auc", (16 : Rat))])
      "auc" true = true := by decide

example :
    comparePolicy [("auc", (16 : Rat))] (some [("auc", (16 : Rat))])
      "auc" true = false := by decide

example :
    comparePolicy [] (some [("auc", (16 : Rat))]) "auc" true = false := by
  decide

/-- C2: `compare` evaluates its branches in the documented order — a
candidate lacking the metric is never better; an absent incumbent is
always beaten; an incumbent lacking the metric is always beaten;
otherwise the comparison is the strict inequality in the direction of
`higher_is_better`, so equal values are not better. -/
theorem comparePolicy_spec (cand : Metrics) (inc : Option Metrics)
    (m : String) (hib : Bool) :
    (cand.lookup m = none → comparePolicy cand inc m hib = false) ∧
    (cand.lookup m ≠ none → inc = none → comparePolicy cand inc m hib = true) ∧
    (∀ incM, cand.lookup m ≠ none → inc = some incM → incM.lookup m = none →
      comparePolicy cand inc m hib = true) ∧
    (∀ c p incM, cand.lookup m = some c → inc = some incM →
      incM.lookup m = some p →
      comparePolicy cand inc m hib =
        (if hib then decide (c > p) else decide (c < p))) ∧
    (∀ c incM, cand.lookup m = some c → inc = some incM →
      incM.lookup m = some c → comparePolicy cand inc m hib = false) := by
  refine ⟨?_, ?_, ?_, ?_, ?_⟩
  · intro h; simp [comparePolicy, h]
  · intro h hinc
    subst hinc
    cases hc : cand.lookup m with
    | none => exact absurd hc h
    | some c => simp [comparePolicy, hc]
  · intro incM h hinc hm
    subst hinc
    cases hc : cand.lookup m with
    | none => exact absurd hc h
    | some c => simp [comparePolicy, hc, hm]
  · intro c p incM hc hinc hp
    subst hinc
    simp [comparePolicy, hc, hp]
  · intro c incM hc hinc hp
    subst hinc
    simp [comparePolicy, hc, hp]

/-- C2 witness: the theorem applied at a concrete candidate strictly
above a concrete incumbent. -/
theorem comparePolicy_spec_witness :
    comparePolicy [("auc", (17 : Rat))] (some [("auc", (16 : Rat))])
      "auc" true = true := by
  have h := (comparePolicy_spec [("auc", (17 : Rat))]
    (some [("auc", (16 : Rat))]) "auc" true).2.2.2.1
    ((17 : Rat)) ((16 : Rat)) [("auc", (16 : Rat))]
    (by decide) rfl (by decide)
  rw [h]
  decide

/-- The `model_info` global of `predict.py`: name and version strings,
plus the stage key that most branches add (the initial value has no
stage key, hence the `Option`). -/
structure ModelInfo where
  name : String
  version : String
  stage : Option String
deriving DecidableEq, Repr

/-- The mutable serving state of `predict.py`: the `model` global (the
loaded predictor, identified by the registry version number whose
artifact was loaded, `none` when no predictor is loaded) and the
`model_info` global. -/
structure ServState where
  model : Option Nat
  model_info : ModelInfo
deriving DecidableEq, Repr

/-- The configured model name (`MODEL_NAME` default). -/
def MODEL_NAME : String := "noshow-prediction-model"

/-- The state at process start: `model = None`,
`model_info = {"name": "unknown", "version": "unknown"}`. -/
def initialServState : ServState := ⟨none, ⟨"unknown", "unknown", none⟩⟩

/-- Embeds `load_production_model()`.  With the store reachable and artifact
loads succeeding (`ok = true`): loads the latest Production version if
one exists; otherwise falls back to the highest-numbered version in any
stage; otherwise (empty registry) records the identity
`{"name": "none", "version": "0", "stage": "none"}` and returns with
the `model` global untouched.  Any raised error (`ok = false`) runs the
`except` handler, which clears `model` and sets the fallback
identity. -/
def load_production_model (ok : Bool) (r : Registry) (s : ServState) :
    ServState :=
  if ok then
    match getLatestDeployed r with
    | some pv => ⟨some pv, ⟨MODEL_NAME, toString pv, some "Production"⟩⟩
    | none =>
      match maxVersion r with
      | some latest => ⟨some latest, ⟨MODEL_NAME, toString latest, some "None"⟩⟩
      | none => ⟨s.model, ⟨"none", "0", some "none"⟩⟩
  else ⟨none, ⟨"fallback", "0.0.0", some "error"⟩⟩

/-- The body of the `PredictionResponse` pydantic model of
`predict.py`, field for field. -/
structure PredictionResponse where
  probability : Rat
  is_no_show : Bool
  model_name : String
  model_version : String
  prediction_timestamp : String
deriving DecidableEq, Repr

/-- Outcome of a call to the `/predict` endpoint: a response body, or
an HTTPException with a status code. -/
inductive PredictOutcome where
  | resp (r : PredictionResponse)
  | httpError (code : Nat)
deriving DecidableEq, Repr

/-- The `/predict` handler.  It first calls `load_production_model`
(reload on every request); if the `model` global is unset it returns
the neutral default response tagged with the current `model_info`;
otherwise it evaluates the loaded predictor (`evalP v` is the
probability the artifact of version `v` yields on the request, `ts`
the formatted current time) and raises HTTP 500 if the feature
pipeline or the predictor errors (`predictOk = false`). -/
def predict (ok predictOk : Bool) (r : Registry) (s : ServState)
    (evalP : Nat → Rat) (ts : String) : ServState × PredictOutcome :=
  let s1 := load_production_model ok r s
  match s1.model with
  | none =>
    (s1, PredictOutcome.resp
      ⟨mkRat 1 2, false, s1.model_info.name, s1.model_info.version, ts⟩)
  | some v =>
    if predictOk then
      (s1, PredictOutcome.resp
        ⟨evalP v, decide (evalP v > mkRat 1 2), s1.model_info.name,
          s1.model_info.version, ts⟩)
    else (s1, PredictOutcome.httpError 500)

/-- The string-valued fields of a prediction response. -/
def responseStrings (p : PredictionResponse) : List String :=
  [p.model_name, p.model_version, p.prediction_timestamp]

/-- C6: whenever the reload leaves no predictor loaded, `predict`
answers with the neutral default — probability one half, label false —
tagged with the current identity metadata, and does not raise. -/
theorem predict_fallback_default (ok predictOk : Bool) (r : Registry)
    (s : ServState) (evalP : Nat → Rat) (ts : String)
    (h : (load_production_model ok r s).model = none) :
    (predict ok predictOk r s evalP ts).2 = PredictOutcome.resp
      ⟨mkRat 1 2, false, (load_production_model ok r s).model_info.name,
        (load_production_model ok r s).model_info.version, ts⟩ := by
  simp only [predict]
  rw [h]

/-- C6 witness: on an empty registry from the initial state no
predictor is loaded and the endpoint returns the tagged neutral
default. -/
theorem predict_fallback_default_witness :
    (predict true true [] initialServState (fun _ => 0) "t").2 =
      PredictOutcome.resp ⟨mkRat 1 2, false, "none", "0", "t"⟩ := by
  have h := predict_fallback_default true true [] initialServState
    (fun _ => 0) "t" rfl
  exact h.trans (by decide)

/-- C8 counterexample: a reload that fails with a predictor already
loaded does not leave the previous state untouched — the predictor is
discarded and the identity replaced by the fallback identity. -/
theorem load_failure_clobbers_state :
    (⟨some 1, ⟨MODEL_NAME, "1", some "Production"⟩⟩ : ServState).model
        = some 1 ∧
    (load_production_model false [⟨1, Stage.Deployed, "r1"⟩]
        ⟨some 1, ⟨MODEL_NAME, "1", some "Production"⟩⟩).model = none ∧
    load_production_model false [⟨1, Stage.Deployed, "r1"⟩]
        ⟨some 1, ⟨MODEL_NAME, "1", some "Production"⟩⟩ ≠
      ⟨some 1, ⟨MODEL_NAME, "1", some "Production"⟩⟩ := by
  decide

/-- C8 amended: a reload whose registry call or artifact load fails
always overwrites the serving state with the fallback state — the
loaded predictor is cleared and the identity set to name "fallback",
version "0.0.0" — even when a valid predictor was loaded before. -/
theorem load_failure_overwrites (r : Registry) (s : ServState) :
    load_production_model false r s =
      ⟨none, ⟨"fallback", "0.0.0", some "error"⟩⟩ := rfl

/-- C9 counterexample: on a completely empty registry the prediction
response is the five-field record with model name "none" and model
version "0"; no field of the response holds the value "fallback" or
"ready", so the response carries no status field with those values. -/
theorem response_has_no_status_field :
    (predict true true [] initialServState (fun _ => 0)
        "2026-01-01T00:00:00Z").2 =
      PredictOutcome.resp
        ⟨mkRat 1 2, false, "none", "0", "2026-01-01T00:00:00Z"⟩ ∧
    "fallback" ∉ responseStrings
        ⟨mkRat 1 2, false, "none", "0", "2026-01-01T00:00:00Z"⟩ ∧
    "ready" ∉ responseStrings
        ⟨mkRat 1 2, false, "none", "0", "2026-01-01T00:00:00Z"⟩ := by
  decide

/-- C9 amended: a prediction response consists of the five fields
probability, no-show label, model name, model version and timestamp,
with no status field; on a completely empty registry the endpoint
returns probability one half, label false, model name "none" and model
version "0" without raising. -/
theorem predict_empty_registry (evalP : Nat → Rat) (ts : String) :
    (predict true true [] initialServState evalP ts).2 =
      PredictOutcome.resp ⟨mkRat 1 2, false, "none", "0", ts⟩ := rfl

/-- C10: a reload against an empty registry leaves the loaded predictor
in place while overwriting the identity metadata to name "none",
version "0"; a subsequent prediction therefore still invokes the old
predictor but reports version "0". -/
theorem reload_empty_keeps_predictor (s : ServState) (p : Nat)
    (evalP : Nat → Rat) (ts : String) (h : s.model = some p) :
    load_production_model true [] s =
      ⟨some p, ⟨"none", "0", some "none"⟩⟩ ∧
    (predict true true [] s evalP ts).2 = PredictOutcome.resp
      ⟨evalP p, decide (evalP p > mkRat 1 2), "none", "0", ts⟩ := by
  obtain ⟨m, info⟩ := s
  dsimp only at h
  subst h
  exact ⟨rfl, rfl⟩

/-- C10 witness: with predictor of version 3 loaded and the registry
empty, the reload keeps the predictor and the next prediction invokes
it while reporting version "0". -/
theorem reload_empty_keeps_predictor_witness :
    (predict true true [] ⟨some 3, ⟨MODEL_NAME, "3", some "Production"⟩⟩
        (fun _ => 0) "t").2 =
      PredictOutcome.resp ⟨0, false, "none", "0", "t"⟩ := by
  have h := reload_empty_keeps_predictor
    ⟨some 3, ⟨MODEL_NAME, "3", some "Production"⟩⟩ 3 (fun _ => 0) "t" rfl
  exact h.2.trans (by decide)

theorem versions_setStage (r : Registry) (v : Nat) (s : Stage) :
    versions (setStage r v s) = versions r := by
  induction r with
  | nil => rfl
  | cons m r ih =>
    by_cases h : m.version = v <;>
      simp [versions, setStage, h] at ih ⊢ <;> exact ih

theorem stageOf_setStage (r : Registry) (v w : Nat) (s : Stage) :
    stageOf (setStage r v s) w =
      (stageOf r w).map (fun st => if w = v then s else st) := by
  unfold stageOf findVersion setStage
  rw [List.find?_map]
  have hpred : ((fun m : MV => decide (m.version = w)) ∘
      (fun m : MV => if m.version = v then { m with stage := s } else m)) =
      (fun m : MV => decide (m.version = w)) := by
    funext m
    by_cases h : m.version = v <;> simp [h]
  rw [hpred]
  cases hf : r.find? (fun m : MV => decide (m.version = w)) with
  | none => rfl
  | some m =>
    have hv : m.version = w := by simpa using List.find?_some hf
    by_cases h : w = v <;>
      simp [Option.map_map, Function.comp, hv, h]

theorem stageOf_setStage_self (r : Registry) (v : Nat) (s : Stage) :
    stageOf (setStage r v s) v = (stageOf r v).map (fun _ => s) := by
  rw [stageOf_setStage]
  simp

theorem stageOf_setStage_ne (r : Registry) (v w : Nat) (s : Stage)
    (h : w ≠ v) : stageOf (setStage r v s) w = stageOf r w := by
  rw [stageOf_setStage]
  simp [h]

theorem stageOf_isSome_of_mem (r : Registry) (v : Nat)
    (h : v ∈ versions r) : (stageOf r v).isSome := by
  rcases List.mem_map.mp h with ⟨m, hm, hv⟩
  rw [stageOf, findVersion]
  have : (r.find? (fun x => x.version = v)).isSome :=
    List.find?_isSome.mpr ⟨m, hm, by simp [hv]⟩
  cases hf : r.find? (fun x => x.version = v)
  · rw [hf] at this; cases this
  · rfl

theorem mem_deployed_of_stageOf (r : Registry) (w : Nat)
    (h : stageOf r w = some Stage.Deployed) : w ∈ deployedVersions r := by
  rw [stageOf, findVersion] at h
  cases hf : r.find? (fun m => m.version = w) with
  | none => rw [hf] at h; cases h
  | some m =>
    rw [hf] at h
    have hst : m.stage = Stage.Deployed := by
      simpa using h
    have hmem := List.mem_of_find?_eq_some hf
    have hpred : m.version = w := by simpa using List.find?_some hf
    exact List.mem_map.mpr
      ⟨m, List.mem_filter.mpr ⟨hmem, by simp [hst]⟩, hpred⟩

theorem find?_version_of_nodup (r : Registry) (m : MV)
    (hn : (versions r).Nodup) (hm : m ∈ r) :
    r.find? (fun x => x.version = m.version) = some m := by
  induction r with
  | nil => cases hm
  | cons a r ih =>
    have hver : versions (a :: r) = a.version :: versions r := rfl
    rw [hver] at hn
    have hn1 : a.version ∉ versions r := (List.nodup_cons.mp hn).1
    have hn2 : (versions r).Nodup := (List.nodup_cons.mp hn).2
    rcases List.mem_cons.mp hm with rfl | hm2
    · rw [List.find?_cons_of_pos _ (by simp)]
    · have hne : ¬ a.version = m.version := fun he =>
        hn1 (he ▸ List.mem_map_of_mem (fun x => x.version) hm2)
      rw [List.find?_cons_of_neg _ (by simpa using hne)]
      exact ih hn2 hm2

theorem stageOf_of_mem_deployed (r : Registry) (w : Nat)
    (hn : (versions r).Nodup) (h : w ∈ deployedVersions r) :
    stageOf r w = some Stage.Deployed := by
  rcases List.mem_map.mp h with ⟨m, hmf, hv⟩
  rcases List.mem_filter.mp hmf with ⟨hmem, hst⟩
  have hst2 : m.stage = Stage.Deployed := by simpa using hst
  subst hv
  rw [stageOf, findVersion, find?_version_of_nodup r m hn hmem]
  simp [hst2]

theorem no_deployed_of_latest_none (r : Registry) (w : Nat)
    (h : getLatestDeployed r = none) :
    stageOf r w ≠ some Stage.Deployed := by
  intro hw
  have hmem := mem_deployed_of_stageOf r w hw
  rw [getLatestDeployed, List.max?_eq_none_iff] at h
  rw [h] at hmem
  cases hmem

theorem latest_deployed_mem (r : Registry) (pv : Nat)
    (h : getLatestDeployed r = some pv) : pv ∈ deployedVersions r :=
  (List.max?_eq_some_iff'.mp h).1

theorem stageOf_latest_deployed (r : Registry) (pv : Nat)
    (hn : (versions r).Nodup) (h : getLatestDeployed r = some pv) :
    stageOf r pv = some Stage.Deployed :=
  stageOf_of_mem_deployed r pv hn (latest_deployed_mem r pv h)

theorem eq_of_mem_of_length_le_one {α : Type} {l : List α} {a b : α}
    (h : l.length ≤ 1) (ha : a ∈ l) (hb : b ∈ l) : a = b := by
  match l with
  | [] => cases ha
  | [x] =>
    rw [List.mem_singleton.mp ha, List.mem_singleton.mp hb]
  | x :: y :: t => simp at h

theorem nodup_deployedVersions (r : Registry)
    (hn : (versions r).Nodup) : (deployedVersions r).Nodup := by
  unfold deployedVersions
  unfold versions at hn
  exact List.Nodup.sublist
    (List.Sublist.map (fun m => m.version) (List.filter_sublist r)) hn

theorem length_le_one_of_pointwise (r : Registry)
    (hn : (versions r).Nodup)
    (h : ∀ v w, stageOf r v = some Stage.Deployed →
      stageOf r w = some Stage.Deployed → v = w) :
    (deployedVersions r).length ≤ 1 := by
  have hnd := nodup_deployedVersions r hn
  match hl : deployedVersions r with
  | [] => simp
  | [x] => simp
  | x :: y :: t =>
    exfalso
    have hx := stageOf_of_mem_deployed r x hn (by rw [hl]; simp)
    have hy := stageOf_of_mem_deployed r y hn (by rw [hl]; simp)
    rw [hl] at hnd
    rcases List.nodup_cons.mp hnd with ⟨hxny, _⟩
    exact hxny (h x y hx hy ▸ List.mem_cons_self y t)

theorem promote_true_eq (r : Registry) (v : Nat) :
    promote_to_production true r v true =
      (if v ∈ versions (archiveExistingStep r)
        then (setStage (archiveExistingStep r) v Stage.Deployed, true)
        else (archiveExistingStep r, false)) := rfl

theorem versions_archiveExistingStep (r : Registry) :
    versions (archiveExistingStep r) = versions r := by
  unfold archiveExistingStep
  cases getLatestDeployed r
  · rfl
  · exact versions_setStage r _ Stage.Archived

theorem versions_promote (r : Registry) (v : Nat) :
    versions (promote_to_production true r v true).1 = versions r := by
  rw [promote_true_eq]
  split
  · exact (versions_setStage _ v Stage.Deployed).trans
      (versions_archiveExistingStep r)
  · exact versions_archiveExistingStep r

theorem no_deployed_archiveExistingStep (r : Registry)
    (hn : (versions r).Nodup) (h1 : (deployedVersions r).length ≤ 1)
    (w : Nat) : stageOf (archiveExistingStep r) w ≠ some Stage.Deployed := by
  intro hw
  unfold archiveExistingStep at hw
  cases hld : getLatestDeployed r with
  | none =>
    rw [hld] at hw
    exact no_deployed_of_latest_none r w hld hw
  | some pv =>
    rw [hld] at hw
    by_cases hwp : w = pv
    · subst hwp
      rw [stageOf_setStage_self] at hw
      cases hso : stageOf r w <;> rw [hso] at hw <;> simp at hw
    · rw [stageOf_setStage_ne _ _ _ _ hwp] at hw
      have hpv := stageOf_latest_deployed r pv hn hld
      exact hwp (eq_of_mem_of_length_le_one h1
        (mem_deployed_of_stageOf r w hw)
        (mem_deployed_of_stageOf r pv hpv))

theorem promote_preserves (r : Registry) (v : Nat)
    (hn : (versions r).Nodup) (h1 : (deployedVersions r).length ≤ 1) :
    (deployedVersions (promote_to_production true r v true).1).length ≤ 1 := by
  have hn1 : (versions (archiveExistingStep r)).Nodup := by
    rw [versions_archiveExistingStep]; exact hn
  rw [promote_true_eq]
  split
  · apply length_le_one_of_pointwise
    · rw [versions_setStage, versions_archiveExistingStep]; exact hn
    · intro a b ha hb
      by_cases hav : a = v
      · by_cases hbv : b = v
        · rw [hav, hbv]
        · rw [stageOf_setStage_ne _ _ _ _ hbv] at hb
          exact absurd hb (no_deployed_archiveExistingStep r hn h1 b)
      · rw [stageOf_setStage_ne _ _ _ _ hav] at ha
        exact absurd ha (no_deployed_archiveExistingStep r hn h1 a)
  · apply length_le_one_of_pointwise _ hn1
    intro a b ha _
    exact absurd ha (no_deployed_archiveExistingStep r hn h1 a)

theorem promote_archives_incumbent (r : Registry) (v : Nat)
    (hn : (versions r).Nodup) (h1 : (deployedVersions r).length ≤ 1)
    (hs : (promote_to_production true r v true).2 = true) :
    stageOf (promote_to_production true r v true).1 v
        = some Stage.Deployed ∧
    ∀ w, stageOf r w = some Stage.Deployed → w ≠ v →
      stageOf (promote_to_production true r v true).1 w
        = some Stage.Archived := by
  rw [promote_true_eq] at hs ⊢
  by_cases hv : v ∈ versions (archiveExistingStep r)
  case neg => rw [if_neg hv] at hs; cases hs
  rw [if_pos hv] at hs ⊢
  constructor
  · show stageOf (setStage (archiveExistingStep r) v Stage.Deployed) v
      = some Stage.Deployed
    rw [stageOf_setStage_self]
    have hsome := stageOf_isSome_of_mem _ _ hv
    cases hso : stageOf (archiveExistingStep r) v with
    | none => rw [hso] at hsome; cases hsome
    | some st => rfl
  · intro w hw hwv
    show stageOf (setStage (archiveExistingStep r) v Stage.Deployed) w
      = some Stage.Archived
    rw [stageOf_setStage_ne _ _ _ _ hwv]
    unfold archiveExistingStep
    cases hld : getLatestDeployed r with
    | none => exact absurd hw (no_deployed_of_latest_none r w hld)
    | some pv =>
      have hpv := stageOf_latest_deployed r pv hn hld
      have hwpv : w = pv := eq_of_mem_of_length_le_one h1
        (mem_deployed_of_stageOf r w hw)
        (mem_deployed_of_stageOf r pv hpv)
      subst hwpv
      rw [stageOf_setStage_self, hw]
      rfl

/-- A sequence of sequential `promote_to_production(v, True)` calls
against a reachable store. -/
def promoteSeq (r : Registry) (vs : List Nat) : Registry :=
  vs.foldl (fun s v => (promote_to_production true s v true).1) r

theorem promoteSeq_preserves (vs : List Nat) (r : Registry)
    (hn : (versions r).Nodup) (h1 : (deployedVersions r).length ≤ 1) :
    (deployedVersions (promoteSeq r vs)).length ≤ 1 := by
  induction vs generalizing r with
  | nil => exact h1
  | cons v vs ih =>
    have hstep : promoteSeq r (v :: vs) =
        promoteSeq (promote_to_production true r v true).1 vs := rfl
    rw [hstep]
    exact ih _ (by rw [versions_promote]; exact hn)
      (promote_preserves r v hn h1)

/-- C1 counterexample: promoting the version that is already Deployed
succeeds, yet that previously deployed version ends `Deployed`, not
`Archived` — the code archives it and immediately re-deploys it. -/
theorem promote_redeploy_not_archived :
    (promote_to_production true [⟨1, Stage.Deployed, "r1"⟩] 1 true).2
        = true ∧
    stageOf [⟨1, Stage.Deployed, "r1"⟩] 1 = some Stage.Deployed ∧
    ¬ stageOf (promote_to_production true
        [⟨1, Stage.Deployed, "r1"⟩] 1 true).1 1 = some Stage.Archived := by
  decide

/-- C1 amended: starting from a well-formed registry (distinct version
numbers, at most one Deployed version), any sequence of successful or
unsuccessful `promote(v, archive_existing=True)` calls leaves at most
one version Deployed; and after one successful such call, `v` is
Deployed and every version that was Deployed before the call other
than `v` itself is Archived. -/
theorem promote_single_deployed :
    (∀ (r : Registry) (vs : List Nat), (versions r).Nodup →
      (deployedVersions r).length ≤ 1 →
      (deployedVersions (promoteSeq r vs)).length ≤ 1) ∧
    (∀ (r : Registry) (v : Nat), (versions r).Nodup →
      (deployedVersions r).length ≤ 1 →
      (promote_to_production true r v true).2 = true →
      stageOf (promote_to_production true r v true).1 v
          = some Stage.Deployed ∧
      ∀ w, stageOf r w = some Stage.Deployed → w ≠ v →
        stageOf (promote_to_production true r v true).1 w
          = some Stage.Archived) :=
  ⟨fun r vs hn h1 => promoteSeq_preserves vs r hn h1,
   fun r v hn h1 hs => promote_archives_incumbent r v hn h1 hs⟩

/-- C1 witness: promote version 2 over deployed version 1 — afterwards
at most one version is Deployed, 2 is Deployed, and 1 is Archived. -/
theorem promote_single_deployed_witness :
    (deployedVersions (promoteSeq
        [⟨1, Stage.Deployed, "a"⟩, ⟨2, Stage.Unstaged, "b"⟩] [2])).length
        ≤ 1 ∧
    stageOf (promote_to_production true
        [⟨1, Stage.Deployed, "a"⟩, ⟨2, Stage.Unstaged, "b"⟩] 2 true).1 2
        = some Stage.Deployed ∧
    stageOf (promote_to_production true
        [⟨1, Stage.Deployed, "a"⟩, ⟨2, Stage.Unstaged, "b"⟩] 2 true).1 1
        = some Stage.Archived := by
  refine ⟨promote_single_deployed.1 _ [2] (by decide) (by decide), ?_, ?_⟩
  · exact (promote_single_deployed.2 _ 2 (by decide) (by decide)
      (by decide)).1
  · exact (promote_single_deployed.2 _ 2 (by decide) (by decide)
      (by decide)).2 1 (by decide) (by decide)

theorem latest_deployed_of_stageOf (r : Registry) (pv : Nat)
    (h1 : (deployedVersions r).length ≤ 1)
    (hpv : stageOf r pv = some Stage.Deployed) :
    getLatestDeployed r = some pv := by
  have hmem := mem_deployed_of_stageOf r pv hpv
  cases hm : getLatestDeployed r with
  | none => exact absurd hpv (no_deployed_of_latest_none r pv hm)
  | some m =>
    rw [eq_of_mem_of_length_le_one h1 (latest_deployed_mem r m hm) hmem]

theorem latest_deployed_none_of_no_deployed (r : Registry)
    (hn : (versions r).Nodup)
    (h : ∀ w, stageOf r w ≠ some Stage.Deployed) :
    getLatestDeployed r = none := by
  cases hm : getLatestDeployed r with
  | none => rfl
  | some m =>
    exact absurd (stageOf_latest_deployed r m hn hm) (h m)

/-- C7: with the store reachable, the reload resolves the active
version exactly as documented — the Deployed version when one exists,
otherwise the highest-numbered version in any stage, and the explicit
no-model identity (name "none", version "0") exactly when the registry
is empty. -/
theorem load_resolution (r : Registry) (s : ServState)
    (hn : (versions r).Nodup) (h1 : (deployedVersions r).length ≤ 1) :
    (∀ pv, stageOf r pv = some Stage.Deployed →
      load_production_model true r s =
        ⟨some pv, ⟨MODEL_NAME, toString pv, some "Production"⟩⟩) ∧
    ((∀ w, stageOf r w ≠ some Stage.Deployed) →
      ∀ latest, maxVersion r = some latest →
        load_production_model true r s =
          ⟨some latest, ⟨MODEL_NAME, toString latest, some "None"⟩⟩) ∧
    (r = [] → load_production_model true r s =
      ⟨s.model, ⟨"none", "0", some "none"⟩⟩) ∧
    (r ≠ [] → (load_production_model true r s).model_info.name
      = MODEL_NAME) := by
  refine ⟨?_, ?_, ?_, ?_⟩
  · intro pv hpv
    have hld := latest_deployed_of_stageOf r pv h1 hpv
    simp [load_production_model, hld]
  · intro hnone latest hmax
    have hld := latest_deployed_none_of_no_deployed r hn hnone
    simp [load_production_model, hld, hmax]
  · intro hr
    subst hr
    rfl
  · intro hr
    cases hld : getLatestDeployed r with
    | some pv => simp [load_production_model, hld, MODEL_NAME]
    | none =>
      cases hmax : maxVersion r with
      | none =>
        rw [maxVersion, List.max?_eq_none_iff] at hmax
        exact absurd (List.map_eq_nil_iff.mp hmax) hr
      | some latest => simp [load_production_model, hld, hmax, MODEL_NAME]

/-- C7 witness: version 1 Deployed and version 2 Unstaged — the reload
loads version 1 with stage Production. -/
theorem load_resolution_witness :
    load_production_model true
        [⟨1, Stage.Deployed, "a"⟩, ⟨2, Stage.Unstaged, "b"⟩]
        initialServState =
      ⟨some 1, ⟨MODEL_NAME, "1", some "Production"⟩⟩ := by
  have h := (load_resolution
    [⟨1, Stage.Deployed, "a"⟩, ⟨2, Stage.Unstaged, "b"⟩]
    initialServState (by decide) (by decide)).1 1 (by decide)
  exact h.trans (by decide)

theorem lt_nextVersion (r : Registry) (w : Nat) (h : w ∈ versions r) :
    w < nextVersion r := by
  unfold nextVersion maxVersion
  cases hm : (versions r).max? with
  | none =>
    rw [List.max?_eq_none_iff] at hm
    rw [hm] at h
    cases h
  | some m =>
    have h2 := (List.max?_eq_some_iff'.mp hm).2 w h
    show w < m + 1
    omega

theorem nextVersion_not_mem (r : Registry) : nextVersion r ∉ versions r :=
  fun h => absurd (lt_nextVersion r _ h) (lt_irrefl _)

theorem stageOf_append_fresh (r : Registry) (v : Nat) (s : Stage)
    (rid : String) (hv : v ∉ versions r) :
    stageOf (r ++ [⟨v, s, rid⟩]) v = some s := by
  rw [stageOf, findVersion, List.find?_append]
  have h1 : r.find? (fun m => m.version = v) = none :=
    List.find?_eq_none.mpr (fun m hm => by
      simp only [decide_eq_true_eq]
      exact fun he => hv (he ▸ List.mem_map_of_mem (fun x => x.version) hm))
  rw [h1]
  simp

theorem versions_register (r : Registry) (run_id : String) :
    versions (register_model r run_id).1 =
      versions r ++ [nextVersion r] := by
  simp [versions, register_model]

theorem register_model_snd (r : Registry) (run_id : String) :
    (register_model r run_id).2 = nextVersion r := rfl

theorem stageOf_register_self (r : Registry) (run_id : String) :
    stageOf (register_model r run_id).1 (nextVersion r)
      = some Stage.Unstaged :=
  stageOf_append_fresh r (nextVersion r) Stage.Unstaged run_id
    (nextVersion_not_mem r)

/-- C3: `auto_promote_if_better` registers the run as a new version
(the next version number), applies the comparison against the deployed
incumbent of the post-registration registry, promotes only when the
comparison is true, returns the new version number exactly when the
promotion call succeeded — equivalently, exactly when the new version
ends in stage Deployed — and otherwise leaves the candidate registered
in stage Unstaged with the rest of the registry unchanged. -/
theorem auto_promote_spec (storeOk promoteOk : Bool) (r : Registry)
    (runs : RunStore) (run_id metric_name : String) (hib : Bool)
    (_hrun : (runs.lookup run_id).isSome) :
    ((auto_promote_if_better storeOk promoteOk r runs run_id metric_name
        hib).2 = some (nextVersion r) ↔
      (compare_models storeOk (register_model r run_id).1 runs
          (get_run_metrics runs run_id) metric_name hib = true ∧
        promoteOk = true)) ∧
    ((auto_promote_if_better storeOk promoteOk r runs run_id metric_name
        hib).2 = some (nextVersion r) ↔
      stageOf (auto_promote_if_better storeOk promoteOk r runs run_id
          metric_name hib).1 (nextVersion r) = some Stage.Deployed) ∧
    ((auto_promote_if_better storeOk promoteOk r runs run_id metric_name
        hib).2 = none →
      stageOf (auto_promote_if_better storeOk promoteOk r runs run_id
          metric_name hib).1 (nextVersion r) = some Stage.Unstaged) ∧
    (compare_models storeOk (register_model r run_id).1 runs
        (get_run_metrics runs run_id) metric_name hib = false →
      (auto_promote_if_better storeOk promoteOk r runs run_id metric_name
        hib).1 = (register_model r run_id).1) ∧
    nextVersion r ∈ versions (auto_promote_if_better storeOk promoteOk r
      runs run_id metric_name hib).1 := by
  have hfresh := stageOf_register_self r run_id
  have hmem : nextVersion r ∈ versions (register_model r run_id).1 := by
    rw [versions_register]
    exact List.mem_append_right _ (List.mem_singleton.mpr rfl)
  by_cases hib2 : compare_models storeOk (register_model r run_id).1 runs
      (get_run_metrics runs run_id) metric_name hib = true
  · cases promoteOk with
    | false =>
      have heq : auto_promote_if_better storeOk false r runs run_id
          metric_name hib = ((register_model r run_id).1, none) := by
        simp [auto_promote_if_better, hib2, promote_to_production]
      rw [heq]
      refine ⟨by simp [hib2], by simp [hfresh], fun _ => hfresh,
        fun _ => rfl, hmem⟩
    | true =>
      have hmemarch : nextVersion r ∈
          versions (archiveExistingStep (register_model r run_id).1) := by
        rw [versions_archiveExistingStep]
        exact hmem
      have hps : promote_to_production true (register_model r run_id).1
          (nextVersion r) true =
          (setStage (archiveExistingStep (register_model r run_id).1)
            (nextVersion r) Stage.Deployed, true) := by
        rw [promote_true_eq, if_pos hmemarch]
      have heq : auto_promote_if_better storeOk true r runs run_id
          metric_name hib =
          (setStage (archiveExistingStep (register_model r run_id).1)
            (nextVersion r) Stage.Deployed, some (nextVersion r)) := by
        simp [auto_promote_if_better, register_model_snd, hib2, hps]
      rw [heq]
      have hdep : stageOf (setStage
          (archiveExistingStep (register_model r run_id).1)
          (nextVersion r) Stage.Deployed) (nextVersion r)
          = some Stage.Deployed := by
        rw [stageOf_setStage_self]
        have hsome := stageOf_isSome_of_mem _ _ hmemarch
        cases hso : stageOf (archiveExistingStep (register_model r
            run_id).1) (nextVersion r) with
        | none => rw [hso] at hsome; cases hsome
        | some st => rfl
      refine ⟨by simp [hib2], by simp [hdep], by simp, fun hf => ?_, ?_⟩
      · rw [hib2] at hf; cases hf
      · dsimp only
        rw [versions_setStage, versions_archiveExistingStep]
        exact hmem
  · have heq : auto_promote_if_better storeOk promoteOk r runs run_id
        metric_name hib = ((register_model r run_id).1, none) := by
      simp [auto_promote_if_better]
      intro hc
      exact absurd hc hib2
    rw [heq]
    refine ⟨by simp [hib2], by simp [hfresh], fun _ => hfresh,
      fun _ => rfl, hmem⟩

/-- C3 witness: empty registry, candidate run with metric auc present —
the candidate is registered as version 1 and promoted, and the version
number is returned. -/
theorem auto_promote_spec_witness :
    (auto_promote_if_better true true [] [("run1", [("auc", (1 : Rat))])]
        "run1" "auc" true).2 = some 1 := by
  have h := (auto_promote_spec true true [] [("run1", [("auc", (1 : Rat))])]
    "run1" "auc" true (by decide)).1
  exact h.mpr ⟨by decide, rfl⟩

/-- C4: with version 1 Deployed and its run metrics recorded, a store
error makes `get_production_model_metrics` return `none` — the same
value as "no Production model" — and `compare_models` then declares a
strictly worse candidate better, whereas with the store reachable the
same candidate correctly loses. -/
theorem store_error_reported_as_absent :
    stageOf [⟨1, Stage.Deployed, "run1"⟩] 1 = some Stage.Deployed ∧
    get_production_model_metrics true [⟨1, Stage.Deployed, "run1"⟩]
      [("run1", [("auc", (9 : Rat))])] = some [("auc", (9 : Rat))] ∧
    get_production_model_metrics false [⟨1, Stage.Deployed, "run1"⟩]
      [("run1", [("auc", (9 : Rat))])] = none ∧
    compare_models false [⟨1, Stage.Deployed, "run1"⟩]
      [("run1", [("auc", (9 : Rat))])] [("auc", (1 : Rat))] "auc" true
      = true ∧
    compare_models true [⟨1, Stage.Deployed, "run1"⟩]
      [("run1", [("auc", (9 : Rat))])] [("auc", (1 : Rat))] "auc" true
      = false := by
  decide
